import Mathlib

/-!
Verification of the ranking-budget diff report generator
(`scripts/ranking_budget_diff_report.py`).

The script loads two JSON snapshots (`before`, `after`), renders an
aggregate-metric table for the fixed metric list `top1_hit_rate`, `mrr`,
builds a per-case index for each snapshot keyed by the required `id`
field (last occurrence wins, as in a Python dict comprehension), and
renders one case row per id in the sorted union of the two key sets.

Embedding conventions:
- JSON numbers are modelled as exact rationals (`ℚ`); the Python code
  performs plain binary-float arithmetic, idealised here as exact
  field arithmetic.
- A JSON object field that may be absent is an `Option`; for
  `observed_top_result_id` the value itself may be `null`, so that
  field is `Option (Option String)` (absent / null / string).
- The dict comprehension `{case["id"]: case for case in cases}` is an
  association list built by insert-or-overwrite; a case without an
  `id` key raises `KeyError`, modelled by `Option` failure of the
  whole computation.
- `f"{x:.1f}"` / `f"{x:.3f}"` are modelled by fixed-point rendering
  with round-half-to-even on the rational value, matching CPython's
  rounding mode for `format`.
- File loading, argument parsing and the final file write are out of
  scope; `main` takes the two decoded snapshots and the two path
  strings that appear in the report header, and returns the document.
-/

namespace RankingBudgetDiff

/-- One entry of a snapshot's `cases` array. `id?` is the (required by
the script, hence failure when absent) `"id"` key; `observed_top_result_id`
is absent (`none`), `null` (`some none`) or a string (`some (some s)`);
`reciprocal_rank` is absent (`none`) or a number. -/
structure RawCase where
  id? : Option String
  observed_top_result_id : Option (Option String)
  reciprocal_rank : Option ℚ
  deriving DecidableEq, Repr

/-- A decoded snapshot JSON object. `extra` holds any further numeric
keys of the top-level object, which the script never requests. -/
structure Snapshot where
  profile : Option String
  top1_hit_rate : Option ℚ
  mrr : Option ℚ
  cases : Option (List RawCase)
  extra : List (String × ℚ)
  deriving DecidableEq, Repr

/-- `snapshot.get(key, 0.0)` for an aggregate-metric key. -/
def aggGet (s : Snapshot) (key : String) : ℚ :=
  if key = "top1_hit_rate" then s.top1_hit_rate.getD 0
  else if key = "mrr" then s.mrr.getD 0
  else ((s.extra.lookup key).getD 0)

/-- The fixed metric list of the script: `(key, label)` pairs. -/
def metrics : List (String × String) :=
  [("top1_hit_rate", "Top-1 hit rate"), ("mrr", "MRR")]

/-- An aggregate-metric row as computed in the script's main loop:
`b`, `a`, `delta = a - b`. -/
structure MetricDelta where
  name : String
  label : String
  before : ℚ
  after : ℚ
  delta : ℚ
  deriving DecidableEq, Repr

def metricDelta (before after : Snapshot) (key label : String) : MetricDelta :=
  let b := aggGet before key
  let a := aggGet after key
  { name := key, label := label, before := b, after := a, delta := a - b }

def metricDeltas (before after : Snapshot) : List MetricDelta :=
  metrics.map fun p => metricDelta before after p.1 p.2

/-! ### Number formatting (`f"{x:.1f}"`, `f"{x:.3f}"`, `pct`) -/

def digitChar (n : Nat) : Char := Char.ofNat (48 + n)

/-- Decimal digits, most significant first; structural recursion on a
fuel bound so that the kernel can evaluate it. -/
def natDigitsAux : Nat → Nat → List Char
  | 0, _ => []
  | fuel + 1, n =>
      if n < 10 then [digitChar n]
      else natDigitsAux fuel (n / 10) ++ [digitChar (n % 10)]

/-- Decimal digits of a natural number, most significant first. -/
def natDigits (n : Nat) : List Char := natDigitsAux (n + 1) n

/-- Left-pad a digit list with zeros to `len` characters. -/
def zeroPad (len : Nat) (s : List Char) : List Char :=
  List.replicate (len - s.length) '0' ++ s

/-- Round a rational to the nearest integer, ties to even — the
rounding CPython's fixed-point `format` applies. -/
def roundHalfEven (q : ℚ) : ℤ :=
  let f := ⌊q⌋
  if q - f < 1 / 2 then f
  else if q - f > 1 / 2 then f + 1
  else if f % 2 = 0 then f else f + 1

/-- The character list of `f"{v:.{prec}f}"`. -/
def fmtFixedL (prec : Nat) (v : ℚ) : List Char :=
  let n := roundHalfEven (v * (10 : ℚ) ^ prec)
  let m := n.natAbs
  (if v < 0 then ['-'] else []) ++
    natDigits (m / 10 ^ prec) ++ ['.'] ++ zeroPad prec (natDigits (m % 10 ^ prec))

def fmtFixed (prec : Nat) (v : ℚ) : String := String.mk (fmtFixedL prec v)

/-- `pct` of the script: `f"{value * 100:.1f}%"`. -/
def pct (value : ℚ) : String := fmtFixed 1 (value * 100) ++ "%"

/-- `f"| {label} | {pct(b)} | {pct(a)} | {pct(delta)} |"`. -/
def renderMetricDelta (d : MetricDelta) : String :=
  "| " ++ d.label ++ " | " ++ pct d.before ++ " | " ++ pct d.after ++
    " | " ++ pct d.delta ++ " |"

def aggLines (before after : Snapshot) : List String :=
  (metricDeltas before after).map renderMetricDelta

/-! ### Case index (`{case["id"]: case for case in snapshot.get("cases", [])}`) -/

/-- Python-dict style insert: overwrite in place when the key exists,
append otherwise. -/
def insertAssoc : List (String × RawCase) → String → RawCase → List (String × RawCase)
  | [], k, v => [(k, v)]
  | (k', v') :: rest, k, v =>
      if k' = k then (k, v) :: rest else (k', v') :: insertAssoc rest k v

/-- Python-dict lookup on the association list. -/
def lookupA : List (String × RawCase) → String → Option RawCase
  | [], _ => none
  | (k', v) :: rest, k => if k' = k then some v else lookupA rest k

def keys (m : List (String × RawCase)) : List String := m.map Prod.fst

/-- Building the dict `{case["id"]: case for ...}` starting from `m`;
`none` models the `KeyError` raised when an entry lacks `"id"`. -/
def buildIndexFrom : List (String × RawCase) → List RawCase →
    Option (List (String × RawCase))
  | m, [] => some m
  | m, c :: rest =>
      match c.id? with
      | none => none
      | some k => buildIndexFrom (insertAssoc m k c) rest

def buildIndex (cs : List RawCase) : Option (List (String × RawCase)) :=
  buildIndexFrom [] cs

/-- The last entry of `cs` whose `id` is `k`, if any. -/
def lastWithId : List RawCase → String → Option RawCase
  | [], _ => none
  | c :: rest, k =>
      match lastWithId rest k with
      | some r => some r
      | none => if c.id? = some k then some c else none

/-! ### Case-level rows -/

/-- `sorted(set(before_cases) | set(after_cases))`. -/
def caseIds (bcs acs : List (String × RawCase)) : List String :=
  List.insertionSort (· ≤ ·) ((keys bcs ++ keys acs).dedup)

/-- `b.get("observed_top_result_id")` where `b = index.get(id, {})`:
the Python value is `None` (here `none`) or a string. -/
def getTop (c? : Option RawCase) : Option String :=
  match c? with
  | none => none
  | some c =>
      match c.observed_top_result_id with
      | none => none
      | some v => v

/-- `float(b.get("reciprocal_rank", 0.0))` where `b = index.get(id, {})`. -/
def getRR (c? : Option RawCase) : ℚ :=
  match c? with
  | none => 0
  | some c => c.reciprocal_rank.getD 0

/-- One case row's computed fields. -/
structure CaseDelta where
  id : String
  beforeTop : Option String
  afterTop : Option String
  beforeRR : ℚ
  afterRR : ℚ
  deriving DecidableEq, Repr

def caseDelta (id : String) (bcs acs : List (String × RawCase)) : CaseDelta :=
  { id := id
    beforeTop := getTop (lookupA bcs id)
    afterTop := getTop (lookupA acs id)
    beforeRR := getRR (lookupA bcs id)
    afterRR := getRR (lookupA acs id) }

/-- `str(x)` applied to the Python value of an optional string:
`str(None) = "None"`. -/
def strOfPyOpt : Option String → String
  | none => "None"
  | some s => s

/-- `"| {id} | `{b_top}` | `{a_top}` | {b_rr:.3f} | {a_rr:.3f} |"`. -/
def renderCaseDelta (d : CaseDelta) : String :=
  "| " ++ d.id ++ " | `" ++ strOfPyOpt d.beforeTop ++ "` | `" ++
    strOfPyOpt d.afterTop ++ "` | " ++ fmtFixed 3 d.beforeRR ++ " | " ++
    fmtFixed 3 d.afterRR ++ " |"

def caseLine (id : String) (bcs acs : List (String × RawCase)) : String :=
  renderCaseDelta (caseDelta id bcs acs)

/-! ### Document assembly -/

def headerLines (before after : Snapshot) (beforePath afterPath : String) :
    List String :=
  [ "# Ranking Budget Contract Diff Report"
  , ""
  , "- before profile: `" ++ before.profile.getD "unknown" ++ "`"
  , "- after profile: `" ++ after.profile.getD "unknown" ++ "`"
  , "- before file: `" ++ beforePath ++ "`"
  , "- after file: `" ++ afterPath ++ "`"
  , ""
  , "| Metric | Before | After | Delta |"
  , "| --- | ---: | ---: | ---: |" ]

def caseHeader : List String :=
  [ ""
  , "## Case-level deltas"
  , ""
  , "| Case | Before top1 | After top1 | Before RR | After RR |"
  , "| --- | --- | --- | ---: | ---: |" ]

def caseSection (bcs acs : List (String × RawCase)) : List String :=
  caseHeader ++ (caseIds bcs acs).map fun i => caseLine i bcs acs

def reportLines (before after : Snapshot) (beforePath afterPath : String)
    (bcs acs : List (String × RawCase)) : List String :=
  headerLines before after beforePath afterPath ++ aggLines before after ++
    caseSection bcs acs

/-- `"\n".join(lines) + "\n"`. -/
def renderDoc (ls : List String) : String := String.intercalate "\n" ls ++ "\n"

/-- The whole computation of the script's `main` after loading and
before the file write: `none` models the `KeyError` abort. -/
def main (before after : Snapshot) (beforePath afterPath : String) :
    Option String := do
  let bcs ← buildIndex (before.cases.getD [])
  let acs ← buildIndex (after.cases.getD [])
  pure (renderDoc (reportLines before after beforePath afterPath bcs acs))

/-! ## Lemmas on the association-list index -/

theorem lookupA_insertAssoc (m : List (String × RawCase)) (k : String)
    (v : RawCase) (k' : String) :
    lookupA (insertAssoc m k v) k' = if k = k' then some v else lookupA m k' := by
  induction m with
  | nil => simp [insertAssoc, lookupA]
  | cons p rest ih =>
      obtain ⟨pk, pv⟩ := p
      by_cases hpk : pk = k
      · subst hpk
        by_cases hkk : pk = k' <;> simp [insertAssoc, lookupA, hkk]
      · by_cases hk' : pk = k'
        · subst hk'
          have hne : k ≠ pk := fun hh => hpk hh.symm
          simp [insertAssoc, if_neg hpk, lookupA, hne]
        · simp [insertAssoc, if_neg hpk, lookupA, if_neg hk', ih]

theorem mem_keys_insertAssoc (m : List (String × RawCase)) (k : String)
    (v : RawCase) (x : String) :
    x ∈ keys (insertAssoc m k v) ↔ x = k ∨ x ∈ keys m := by
  induction m with
  | nil => simp [insertAssoc, keys]
  | cons p rest ih =>
      obtain ⟨pk, pv⟩ := p
      by_cases hpk : pk = k
      · subst hpk
        simp [insertAssoc, keys]
      · simp only [insertAssoc, if_neg hpk, keys, List.map_cons, List.mem_cons] at ih ⊢
        rw [ih]
        tauto

theorem keys_insertAssoc_nodup (m : List (String × RawCase)) (k : String)
    (v : RawCase) (h : (keys m).Nodup) : (keys (insertAssoc m k v)).Nodup := by
  induction m with
  | nil => simp [insertAssoc, keys]
  | cons p rest ih =>
      obtain ⟨pk, pv⟩ := p
      simp only [keys, List.map_cons, List.nodup_cons] at h
      by_cases hpk : pk = k
      · subst hpk
        simpa [insertAssoc, keys] using h
      · simp only [insertAssoc, if_neg hpk, keys, List.map_cons, List.nodup_cons]
        refine ⟨fun hx => ?_, ih h.2⟩
        rw [show (insertAssoc rest k v).map Prod.fst = keys (insertAssoc rest k v) from rfl,
          mem_keys_insertAssoc] at hx
        rcases hx with hx | hx
        · exact hpk hx
        · exact h.1 hx

theorem buildIndexFrom_eq_none (cs : List RawCase) :
    ∀ m, buildIndexFrom m cs = none ↔ ∃ c ∈ cs, c.id? = none := by
  induction cs with
  | nil => intro m; simp [buildIndexFrom]
  | cons c rest ih =>
      intro m
      cases hid : c.id? with
      | none => simp [buildIndexFrom, hid]
      | some k =>
          simp only [buildIndexFrom, hid, ih, List.mem_cons]
          constructor
          · rintro ⟨d, hd, hdid⟩; exact ⟨d, Or.inr hd, hdid⟩
          · rintro ⟨d, hd | hd, hdid⟩
            · subst hd; rw [hid] at hdid; cases hdid
            · exact ⟨d, hd, hdid⟩

theorem buildIndexFrom_keys (cs : List RawCase) :
    ∀ m idx, buildIndexFrom m cs = some idx →
      ∀ x, x ∈ keys idx ↔ x ∈ keys m ∨ ∃ c ∈ cs, c.id? = some x := by
  induction cs with
  | nil =>
      intro m idx h x
      simp only [buildIndexFrom, Option.some.injEq] at h
      subst h
      simp
  | cons c rest ih =>
      intro m idx h x
      cases hid : c.id? with
      | none => simp [buildIndexFrom, hid] at h
      | some k =>
          simp only [buildIndexFrom, hid] at h
          rw [ih _ _ h, mem_keys_insertAssoc]
          simp only [List.mem_cons]
          constructor
          · rintro ((hx | hx) | ⟨d, hd, hdid⟩)
            · exact Or.inr ⟨c, Or.inl rfl, by rw [hid, hx]⟩
            · exact Or.inl hx
            · exact Or.inr ⟨d, Or.inr hd, hdid⟩
          · rintro (hx | ⟨d, hd | hd, hdid⟩)
            · exact Or.inl (Or.inr hx)
            · subst hd
              rw [hid] at hdid
              exact Or.inl (Or.inl (Option.some.inj hdid).symm)
            · exact Or.inr ⟨d, hd, hdid⟩

theorem buildIndexFrom_keys_nodup (cs : List RawCase) :
    ∀ m idx, buildIndexFrom m cs = some idx → (keys m).Nodup →
      (keys idx).Nodup := by
  induction cs with
  | nil =>
      intro m idx h hm
      simp only [buildIndexFrom, Option.some.injEq] at h
      subst h; exact hm
  | cons c rest ih =>
      intro m idx h hm
      cases hid : c.id? with
      | none => simp [buildIndexFrom, hid] at h
      | some k =>
          simp only [buildIndexFrom, hid] at h
          exact ih _ _ h (keys_insertAssoc_nodup _ _ _ hm)

theorem buildIndexFrom_lookup (cs : List RawCase) :
    ∀ m idx, buildIndexFrom m cs = some idx → ∀ k,
      lookupA idx k =
        (match lastWithId cs k with
          | some c => some c
          | none => lookupA m k) := by
  induction cs with
  | nil =>
      intro m idx h k
      simp only [buildIndexFrom, Option.some.injEq] at h
      subst h
      simp [lastWithId]
  | cons c rest ih =>
      intro m idx h k
      cases hid : c.id? with
      | none => simp [buildIndexFrom, hid] at h
      | some k' =>
          simp only [buildIndexFrom, hid] at h
          rw [ih _ _ h k]
          cases hl : lastWithId rest k with
          | some r => simp [lastWithId, hl]
          | none =>
              simp only [lastWithId, hl, lookupA_insertAssoc, hid]
              by_cases hk : k' = k
              · subst hk; simp
              · simp [hk]

theorem buildIndex_eq_none (cs : List RawCase) :
    buildIndex cs = none ↔ ∃ c ∈ cs, c.id? = none :=
  buildIndexFrom_eq_none cs []

theorem buildIndex_keys {cs : List RawCase} {idx : List (String × RawCase)}
    (h : buildIndex cs = some idx) (x : String) :
    x ∈ keys idx ↔ ∃ c ∈ cs, c.id? = some x := by
  rw [buildIndexFrom_keys cs [] idx h x]
  simp [keys]

theorem buildIndex_keys_nodup {cs : List RawCase} {idx : List (String × RawCase)}
    (h : buildIndex cs = some idx) : (keys idx).Nodup :=
  buildIndexFrom_keys_nodup cs [] idx h (by simp [keys])

theorem buildIndex_lookup {cs : List RawCase} {idx : List (String × RawCase)}
    (h : buildIndex cs = some idx) (k : String) :
    lookupA idx k = lastWithId cs k := by
  rw [buildIndexFrom_lookup cs [] idx h k]
  cases hl : lastWithId cs k <;> simp [hl, lookupA]

/-! ## Lemmas on `lastWithId` -/

theorem lastWithId_cons_some {rest : List RawCase} {c r : RawCase} {k : String}
    (hl : lastWithId rest k = some r) : lastWithId (c :: rest) k = some r := by
  simp only [lastWithId, hl]

theorem lastWithId_cons_none {rest : List RawCase} {c : RawCase} {k : String}
    (hl : lastWithId rest k = none) :
    lastWithId (c :: rest) k = if c.id? = some k then some c else none := by
  simp only [lastWithId, hl]

theorem lastWithId_eq_none_iff (cs : List RawCase) (k : String) :
    lastWithId cs k = none ↔ ∀ c ∈ cs, c.id? ≠ some k := by
  induction cs with
  | nil => simp [lastWithId]
  | cons c rest ih =>
      constructor
      · intro h d hd
        cases hl : lastWithId rest k with
        | some r => rw [lastWithId_cons_some hl] at h; cases h
        | none =>
            rw [lastWithId_cons_none hl] at h
            by_cases hc : c.id? = some k
            · rw [if_pos hc] at h; cases h
            · rcases List.mem_cons.mp hd with rfl | hd'
              · exact hc
              · exact ih.mp hl d hd'
      · intro h
        rw [lastWithId_cons_none (ih.mpr fun d hd => h d (List.mem_cons_of_mem _ hd))]
        rw [if_neg (h c (List.mem_cons_self _ _))]

theorem lastWithId_mem {cs : List RawCase} {k : String} {c : RawCase}
    (h : lastWithId cs k = some c) : c ∈ cs ∧ c.id? = some k := by
  induction cs with
  | nil => simp [lastWithId] at h
  | cons d rest ih =>
      cases hl : lastWithId rest k with
      | some r =>
          rw [lastWithId_cons_some hl] at h
          cases Option.some.inj h
          obtain ⟨hm, hid⟩ := ih hl
          exact ⟨List.mem_cons_of_mem _ hm, hid⟩
      | none =>
          rw [lastWithId_cons_none hl] at h
          by_cases hd : d.id? = some k
          · rw [if_pos hd] at h
            cases Option.some.inj h
            exact ⟨List.mem_cons_self _ _, hd⟩
          · rw [if_neg hd] at h
            cases h

/-- With pairwise-distinct `id?` fields, the element carrying a given id
is unique, so `lastWithId` only depends on the multiset of cases. -/
theorem lastWithId_perm {cs cs' : List RawCase} (hp : cs.Perm cs')
    (hn : (cs.map RawCase.id?).Nodup) (k : String) :
    lastWithId cs k = lastWithId cs' k := by
  have uniq : ∀ a ∈ cs, ∀ b ∈ cs, a.id? = b.id? → a = b :=
    List.inj_on_of_nodup_map hn
  cases h : lastWithId cs k with
  | none =>
      rw [lastWithId_eq_none_iff] at h
      symm
      rw [lastWithId_eq_none_iff]
      intro c hc
      exact h c (hp.symm.subset hc)
  | some c =>
      obtain ⟨hmem, hid⟩ := lastWithId_mem h
      cases h' : lastWithId cs' k with
      | none =>
          rw [lastWithId_eq_none_iff] at h'
          exact absurd hid (h' c (hp.subset hmem))
      | some c' =>
          obtain ⟨hmem', hid'⟩ := lastWithId_mem h'
          have : c' = c :=
            uniq c' (hp.symm.subset hmem') c hmem (by rw [hid, hid'])
          rw [this]

/-! ## Lemmas on digit rendering -/

theorem digitChar_isDigit {n : Nat} (h : n < 10) : (digitChar n).isDigit := by
  interval_cases n <;> decide

theorem natDigitsAux_fuel : ∀ n, ∀ f f', n < f → n < f' →
    natDigitsAux f n = natDigitsAux f' n := by
  intro n
  induction n using Nat.strong_induction_on with
  | _ n ih =>
      intro f f' hf hf'
      obtain ⟨a, rfl⟩ : ∃ a, f = a + 1 := ⟨f - 1, by omega⟩
      obtain ⟨b, rfl⟩ : ∃ b, f' = b + 1 := ⟨f' - 1, by omega⟩
      by_cases h : n < 10
      · simp [natDigitsAux, h]
      · have hdivn : n / 10 < n := Nat.div_lt_self (by omega) (by omega)
        simp only [natDigitsAux, if_neg h]
        rw [ih (n / 10) hdivn a b (by omega) (by omega)]

theorem natDigits_lt_ten {n : Nat} (h : n < 10) : natDigits n = [digitChar n] := by
  unfold natDigits natDigitsAux
  simp [h]

theorem natDigits_ge_ten {n : Nat} (h : ¬n < 10) :
    natDigits n = natDigits (n / 10) ++ [digitChar (n % 10)] := by
  have hdivn : n / 10 < n := Nat.div_lt_self (by omega) (by omega)
  unfold natDigits
  conv_lhs => rw [show n + 1 = n + 1 from rfl]
  rw [show natDigitsAux (n + 1) n =
      if n < 10 then [digitChar n]
      else natDigitsAux n (n / 10) ++ [digitChar (n % 10)] from rfl]
  rw [if_neg h, natDigitsAux_fuel (n / 10) n (n / 10 + 1) (by omega) (by omega)]

theorem natDigits_isDigit : ∀ n, ∀ c ∈ natDigits n, c.isDigit := by
  intro n
  induction n using Nat.strong_induction_on with
  | _ n ih =>
      intro c hc
      by_cases h : n < 10
      · rw [natDigits_lt_ten h] at hc
        rw [List.mem_singleton.mp hc]
        exact digitChar_isDigit h
      · rw [natDigits_ge_ten h] at hc
        rcases List.mem_append.mp hc with hc | hc
        · exact ih (n / 10) (Nat.div_lt_self (by omega) (by omega)) c hc
        · rw [List.mem_singleton.mp hc]
          exact digitChar_isDigit (Nat.mod_lt _ (by omega))

theorem natDigits_ne_nil (n : Nat) : natDigits n ≠ [] := by
  by_cases h : n < 10
  · rw [natDigits_lt_ten h]; simp
  · rw [natDigits_ge_ten h]; simp

theorem natDigits_length_le : ∀ k n, n < 10 ^ (k + 1) → (natDigits n).length ≤ k + 1 := by
  intro k
  induction k with
  | zero =>
      intro n h
      rw [natDigits_lt_ten (by simpa using h)]
      simp
  | succ k ih =>
      intro n h
      by_cases h10 : n < 10
      · rw [natDigits_lt_ten h10]; simp
      · rw [natDigits_ge_ten h10, List.length_append]
        have hdiv : n / 10 < 10 ^ (k + 1) := by
          apply Nat.div_lt_of_lt_mul
          rw [pow_succ] at h
          omega
        have := ih _ hdiv
        simp only [List.length_singleton]
        omega

theorem zeroPad_length {len : Nat} {s : List Char} (h : s.length ≤ len) :
    (zeroPad len s).length = len := by
  simp only [zeroPad, List.length_append, List.length_replicate]
  omega

theorem zeroPad_isDigit {len : Nat} {s : List Char} (hs : ∀ c ∈ s, c.isDigit) :
    ∀ c ∈ zeroPad len s, c.isDigit := by
  intro c hc
  rcases List.mem_append.mp hc with hc | hc
  · rw [List.eq_of_mem_replicate hc]; decide
  · exact hs c hc

/-- Shape of the fixed-point rendering: an optional sign, at least one
integer digit, the point, then exactly `prec` fractional digits. -/
theorem fmtFixedL_shape (prec : Nat) (hprec : 1 ≤ prec) (v : ℚ) :
    ∃ ip ds, fmtFixedL prec v = (if v < 0 then ['-'] else []) ++ ip ++ '.' :: ds ∧
      ip ≠ [] ∧ (∀ c ∈ ip, c.isDigit) ∧ ds.length = prec ∧ (∀ c ∈ ds, c.isDigit) := by
  obtain ⟨k, rfl⟩ := Nat.exists_eq_add_of_le' hprec
  refine ⟨natDigits ((roundHalfEven (v * (10 : ℚ) ^ (k + 1))).natAbs / 10 ^ (k + 1)),
    zeroPad (k + 1) (natDigits ((roundHalfEven (v * (10 : ℚ) ^ (k + 1))).natAbs % 10 ^ (k + 1))),
    ?_, natDigits_ne_nil _, natDigits_isDigit _, ?_, zeroPad_isDigit (natDigits_isDigit _)⟩
  · simp [fmtFixedL]
  · apply zeroPad_length
    have hmod : (roundHalfEven (v * (10 : ℚ) ^ (k + 1))).natAbs % 10 ^ (k + 1) <
        10 ^ (k + 1) :=
      Nat.mod_lt _ (Nat.pos_pow_of_pos _ (by omega))
    exact natDigits_length_le k _ hmod

/-! ## Lemmas on the sorted id union -/

theorem mem_caseIds (bcs acs : List (String × RawCase)) (x : String) :
    x ∈ caseIds bcs acs ↔ x ∈ keys bcs ∨ x ∈ keys acs := by
  unfold caseIds
  rw [(List.perm_insertionSort _ _).mem_iff, List.mem_dedup, List.mem_append]

theorem caseIds_nodup (bcs acs : List (String × RawCase)) :
    (caseIds bcs acs).Nodup :=
  ((List.perm_insertionSort _ _).nodup_iff).mpr (List.nodup_dedup _)

theorem caseIds_sorted (bcs acs : List (String × RawCase)) :
    List.Sorted (· < ·) (caseIds bcs acs) :=
  (List.sorted_insertionSort _ _).lt_of_le (caseIds_nodup _ _)

theorem caseIds_congr {bcs bcs' acs acs' : List (String × RawCase)}
    (hb : (keys bcs).Perm (keys bcs')) (ha : (keys acs).Perm (keys acs')) :
    caseIds bcs acs = caseIds bcs' acs' := by
  unfold caseIds
  refine List.eq_of_perm_of_sorted ?_ (List.sorted_insertionSort _ _)
    (List.sorted_insertionSort _ _)
  exact ((List.perm_insertionSort _ _).trans ((hb.append ha).dedup)).trans
    (List.perm_insertionSort _ _).symm

/-- Rebuilding the index from a permutation of a duplicate-free case
list: both builds fail together, or both succeed with indexes equal as
lookup functions and with permuted key lists. -/
theorem buildIndex_perm {cs cs' : List RawCase} (hp : cs.Perm cs')
    (hn : (cs.map RawCase.id?).Nodup) :
    (buildIndex cs = none ∧ buildIndex cs' = none) ∨
      ∃ idx idx', buildIndex cs = some idx ∧ buildIndex cs' = some idx' ∧
        (∀ k, lookupA idx k = lookupA idx' k) ∧ (keys idx).Perm (keys idx') := by
  cases h : buildIndex cs with
  | none =>
      left
      refine ⟨rfl, ?_⟩
      rw [buildIndex_eq_none] at h ⊢
      obtain ⟨c, hc, hcid⟩ := h
      exact ⟨c, hp.subset hc, hcid⟩
  | some idx =>
      right
      cases h' : buildIndex cs' with
      | none =>
          exfalso
          rw [buildIndex_eq_none] at h'
          obtain ⟨c, hc, hcid⟩ := h'
          have hnone : buildIndex cs = none :=
            (buildIndex_eq_none cs).mpr ⟨c, hp.symm.subset hc, hcid⟩
          rw [h] at hnone
          cases hnone
      | some idx' =>
          refine ⟨idx, idx', rfl, rfl, fun k => ?_, ?_⟩
          · rw [buildIndex_lookup h k, buildIndex_lookup h' k,
              lastWithId_perm hp hn k]
          · rw [List.perm_ext_iff_of_nodup (buildIndex_keys_nodup h)
              (buildIndex_keys_nodup h')]
            intro x
            rw [buildIndex_keys h x, buildIndex_keys h' x]
            constructor <;> rintro ⟨c, hc, hcid⟩
            · exact ⟨c, hp.subset hc, hcid⟩
            · exact ⟨c, hp.symm.subset hc, hcid⟩

/-! ## Concrete sample data (spec §8 scenario and duplicate-id lists) -/

def ca1 : RawCase :=
  { id? := some "c1", observed_top_result_id := some (some "r1"),
    reciprocal_rank := some 1 }

def cb1 : RawCase :=
  { id? := some "c1", observed_top_result_id := some (some "r2"),
    reciprocal_rank := some (1 / 2) }

def cb2 : RawCase :=
  { id? := some "c2", observed_top_result_id := some (some "r9"),
    reciprocal_rank := some 1 }

def sampleBefore : Snapshot :=
  { profile := some "v1", top1_hit_rate := some (4 / 5), mrr := some (13 / 20),
    cases := some [ca1], extra := [] }

def sampleAfter : Snapshot :=
  { profile := some "v2", top1_hit_rate := some (3 / 4), mrr := some (3 / 5),
    cases := some [cb1, cb2], extra := [] }

def sampleDup1 : RawCase :=
  { id? := some "c1", observed_top_result_id := some (some "r1"),
    reciprocal_rank := some 1 }

def sampleDup2 : RawCase :=
  { id? := some "c1", observed_top_result_id := some (some "r2"),
    reciprocal_rank := some (1 / 2) }

def emptySnap : Snapshot :=
  { profile := none, top1_hit_rate := none, mrr := none, cases := none,
    extra := [] }

def dupSnap : Snapshot :=
  { emptySnap with cases := some [sampleDup1, sampleDup2] }

def dupSnapRev : Snapshot :=
  { emptySnap with cases := some [sampleDup2, sampleDup1] }

/-! ## The claims -/

/-- Claim C1: for every snapshot pair `(A, B)` and each requested
aggregate metric (`top1_hit_rate`, then `mrr`), the aggregate table has
a row whose before value is A's stored value for the metric (`0` when
absent), whose after value is B's stored value (`0` when absent), and
whose delta is exactly after minus before; the row is present whether
or not either snapshot supplied the metric, and the rendered aggregate
lines are exactly these rows rendered. -/
theorem claim_c1 (A B : Snapshot) :
    metricDeltas A B =
      [ { name := "top1_hit_rate", label := "Top-1 hit rate",
          before := A.top1_hit_rate.getD 0, after := B.top1_hit_rate.getD 0,
          delta := B.top1_hit_rate.getD 0 - A.top1_hit_rate.getD 0 },
        { name := "mrr", label := "MRR",
          before := A.mrr.getD 0, after := B.mrr.getD 0,
          delta := B.mrr.getD 0 - A.mrr.getD 0 } ] ∧
    aggLines A B = (metricDeltas A B).map renderMetricDelta :=
  ⟨rfl, rfl⟩

/-- Claim C4: the case index built from a snapshot's case list maps
each id to the last entry of the list carrying that id, so when an id
occurs more than once the last occurrence's fields win and earlier
occurrences do not affect lookups. -/
theorem claim_c4 (cs : List RawCase) (idx : List (String × RawCase))
    (h : buildIndex cs = some idx) (k : String) :
    lookupA idx k = lastWithId cs k := by
  have := buildIndex_lookup h k
  exact this

/-- Witness for C4 at a list with a duplicated id `"c1"`: the index
entry equals the second occurrence exactly. -/
theorem claim_c4_witness :
    buildIndex [sampleDup1, sampleDup2] = some [("c1", sampleDup2)] ∧
    lookupA [("c1", sampleDup2)] "c1" = lastWithId [sampleDup1, sampleDup2] "c1" ∧
    lastWithId [sampleDup1, sampleDup2] "c1" = some sampleDup2 :=
  ⟨by rfl, claim_c4 [sampleDup1, sampleDup2] [("c1", sampleDup2)] (by rfl) "c1",
    by rfl⟩

/-- Claim C6: diffing a snapshot against itself yields every aggregate
MetricDelta with `before = after` and `delta = 0`, and every CaseDelta
(computed from the one case index used on both sides) with before
fields equal to after fields. -/
theorem claim_c6 (A : Snapshot) (idx : List (String × RawCase)) (k : String) :
    (∀ d ∈ metricDeltas A A, d.before = d.after ∧ d.delta = 0) ∧
    (caseDelta k idx idx).beforeTop = (caseDelta k idx idx).afterTop ∧
    (caseDelta k idx idx).beforeRR = (caseDelta k idx idx).afterRR := by
  refine ⟨?_, rfl, rfl⟩
  intro d hd
  simp only [metricDeltas, metrics, List.map_cons, List.map_nil,
    List.mem_cons, List.not_mem_nil, or_false] at hd
  rcases hd with rfl | rfl <;> exact ⟨rfl, sub_self _⟩

/-- Claim C7: the computation fails exactly when some case entry of
either snapshot lacks the required `id` key; absence of any other
field (profile, metrics, `observed_top_result_id`, `reciprocal_rank`,
or the whole `cases` list) never produces a failure. -/
theorem claim_c7 (A B : Snapshot) (bp ap : String) :
    main A B bp ap = none ↔
      (∃ c ∈ A.cases.getD [], c.id? = none) ∨
        (∃ c ∈ B.cases.getD [], c.id? = none) := by
  rw [← buildIndex_eq_none, ← buildIndex_eq_none]
  cases hb : buildIndex (A.cases.getD []) with
  | none => simp [main, hb]
  | some bcs =>
      cases ha : buildIndex (B.cases.getD []) with
      | none => simp [main, hb, ha]
      | some acs => simp [main, hb, ha]

/-- Claim C8: the computation is deterministic — it is a pure function
of the two snapshot payloads and the two source references, so equal
inputs give a byte-identical document. -/
theorem claim_c8 (A B : Snapshot) (bp ap : String) (A' B' : Snapshot)
    (bp' ap' : String) (hA : A = A') (hB : B = B') (hbp : bp = bp')
    (hap : ap = ap') :
    main A B bp ap = main A' B' bp' ap' := by
  subst hA hB hbp hap
  rfl

/-- Witness for C8 at the spec's concrete scenario. -/
theorem claim_c8_witness :
    main sampleBefore sampleAfter "pre.json" "post.json" =
      main sampleBefore sampleAfter "pre.json" "post.json" :=
  claim_c8 sampleBefore sampleAfter "pre.json" "post.json" sampleBefore
    sampleAfter "pre.json" "post.json" rfl rfl rfl rfl

/-- A case whose `observed_top_result_id` key is absent. -/
def caseTopAbsent : RawCase :=
  { id? := some "c1", observed_top_result_id := none, reciprocal_rank := some 1 }

/-- A case whose `observed_top_result_id` is an explicit JSON `null`. -/
def caseTopNull : RawCase :=
  { id? := some "c1", observed_top_result_id := some none,
    reciprocal_rank := some 1 }

/-- A case whose `observed_top_result_id` is the literal string `"None"`. -/
def caseTopNoneString : RawCase :=
  { id? := some "c1", observed_top_result_id := some (some "None"),
    reciprocal_rank := some 1 }

/-- Claim C9: an absent `observed_top_result_id`, an explicit `null`,
and the literal string `"None"` all render as the identical cell text
`None`; the rendered case row cannot distinguish the three states. -/
theorem claim_c9 :
    strOfPyOpt (getTop (some caseTopAbsent)) = "None" ∧
    strOfPyOpt (getTop (some caseTopNull)) = "None" ∧
    strOfPyOpt (getTop (some caseTopNoneString)) = "None" ∧
    caseLine "c1" [("c1", caseTopAbsent)] [] =
      caseLine "c1" [("c1", caseTopNull)] [] ∧
    caseLine "c1" [("c1", caseTopNull)] [] =
      caseLine "c1" [("c1", caseTopNoneString)] [] :=
  ⟨rfl, rfl, rfl, rfl, rfl⟩

/-- Claim C10: the aggregate table always has exactly the two rows
`top1_hit_rate` then `mrr` in that order; any other aggregate keys in
either snapshot are ignored (the whole report is unchanged by them);
and the `mrr` row is rendered through the same `pct` percentage
formatting (value times 100, one decimal, `%` suffix) as the rate
metric. -/
theorem claim_c10 (A B : Snapshot) (bp ap : String) (e e' : List (String × ℚ)) :
    (metricDeltas A B).map MetricDelta.name = ["top1_hit_rate", "mrr"] ∧
    aggLines A B =
      [ "| Top-1 hit rate | " ++ pct (A.top1_hit_rate.getD 0) ++ " | " ++
          pct (B.top1_hit_rate.getD 0) ++ " | " ++
          pct (B.top1_hit_rate.getD 0 - A.top1_hit_rate.getD 0) ++ " |",
        "| MRR | " ++ pct (A.mrr.getD 0) ++ " | " ++ pct (B.mrr.getD 0) ++
          " | " ++ pct (B.mrr.getD 0 - A.mrr.getD 0) ++ " |" ] ∧
    main { A with extra := e } { B with extra := e' } bp ap = main A B bp ap :=
  ⟨rfl, rfl, rfl⟩

/-- Claim C2: the case table has exactly one row per id in the union
of the two snapshots' case ids — membership in the rendered row list
is exactly membership of the id union, no duplicates, rows in strictly
ascending lexicographic id order — and an id absent from one side gets
that side's defaults (absent top-result, reciprocal rank `0`). -/
theorem claim_c2 (A B : Snapshot) (bcs acs : List (String × RawCase))
    (hb : buildIndex (A.cases.getD []) = some bcs)
    (ha : buildIndex (B.cases.getD []) = some acs) :
    (∀ x, x ∈ caseIds bcs acs ↔
        (∃ c ∈ A.cases.getD [], c.id? = some x) ∨
          (∃ c ∈ B.cases.getD [], c.id? = some x)) ∧
    List.Sorted (· < ·) (caseIds bcs acs) ∧
    (caseIds bcs acs).Nodup ∧
    (∀ x, lookupA bcs x = none →
        (caseDelta x bcs acs).beforeTop = none ∧
          (caseDelta x bcs acs).beforeRR = 0) ∧
    (∀ x, lookupA acs x = none →
        (caseDelta x bcs acs).afterTop = none ∧
          (caseDelta x bcs acs).afterRR = 0) ∧
    caseSection bcs acs =
      caseHeader ++ (caseIds bcs acs).map fun i => caseLine i bcs acs := by
  refine ⟨?_, caseIds_sorted _ _, caseIds_nodup _ _, ?_, ?_, rfl⟩
  · intro x
    rw [mem_caseIds, buildIndex_keys hb x, buildIndex_keys ha x]
  · intro x hx
    simp [caseDelta, hx, getTop, getRR]
  · intro x hx
    simp [caseDelta, hx, getTop, getRR]

/-- Witness for C2 at the spec's concrete scenario (ids `c1`, `c2`;
`c2` present only in the after snapshot). -/
theorem claim_c2_witness :
    ("c2" ∈ caseIds [("c1", ca1)] [("c1", cb1), ("c2", cb2)] ↔
        (∃ c ∈ sampleBefore.cases.getD [], c.id? = some "c2") ∨
          (∃ c ∈ sampleAfter.cases.getD [], c.id? = some "c2")) ∧
    List.Sorted (· < ·) (caseIds [("c1", ca1)] [("c1", cb1), ("c2", cb2)]) :=
  ⟨(claim_c2 sampleBefore sampleAfter [("c1", ca1)] [("c1", cb1), ("c2", cb2)]
      (by rfl) (by rfl)).1 "c2",
    (claim_c2 sampleBefore sampleAfter [("c1", ca1)] [("c1", cb1), ("c2", cb2)]
      (by rfl) (by rfl)).2.1⟩

/-- Claim C5: `pct` renders a value as its percentage (times 100) with
exactly one decimal digit and a `%` suffix, carrying a minus sign
exactly when the value is negative; per-case reciprocal ranks render
with exactly three decimal digits; and a missing top-result renders as
the marker `None`, never as the empty string. -/
theorem claim_c5 (v : ℚ) (d : CaseDelta) :
    pct v = fmtFixed 1 (v * 100) ++ "%" ∧
    (∃ ip ds, fmtFixed 1 (v * 100) =
        String.mk ((if v < 0 then ['-'] else []) ++ ip ++ '.' :: ds) ∧
        ip ≠ [] ∧ (∀ c ∈ ip, c.isDigit) ∧ ds.length = 1 ∧ ∀ c ∈ ds, c.isDigit) ∧
    (∃ ip ds, fmtFixed 3 v =
        String.mk ((if v < 0 then ['-'] else []) ++ ip ++ '.' :: ds) ∧
        ip ≠ [] ∧ (∀ c ∈ ip, c.isDigit) ∧ ds.length = 3 ∧ ∀ c ∈ ds, c.isDigit) ∧
    renderCaseDelta d =
      "| " ++ d.id ++ " | `" ++ strOfPyOpt d.beforeTop ++ "` | `" ++
        strOfPyOpt d.afterTop ++ "` | " ++ fmtFixed 3 d.beforeRR ++ " | " ++
        fmtFixed 3 d.afterRR ++ " |" ∧
    strOfPyOpt none = "None" ∧ strOfPyOpt none ≠ "" := by
  have hsign : (v * 100 < 0) ↔ (v < 0) := by
    constructor <;> intro h <;> nlinarith
  refine ⟨rfl, ?_, ?_, rfl, rfl, by decide⟩
  · obtain ⟨ip, ds, heq, hip, hipd, hlen, hdsd⟩ :=
      fmtFixedL_shape 1 (by omega) (v * 100)
    refine ⟨ip, ds, ?_, hip, hipd, hlen, hdsd⟩
    unfold fmtFixed
    rw [heq]
    simp only [hsign]
  · obtain ⟨ip, ds, heq, hip, hipd, hlen, hdsd⟩ :=
      fmtFixedL_shape 3 (by omega) v
    refine ⟨ip, ds, ?_, hip, hipd, hlen, hdsd⟩
    unfold fmtFixed
    rw [heq]

theorem main_unfold (A B : Snapshot) (bp ap : String) :
    main A B bp ap =
      match buildIndex (A.cases.getD []), buildIndex (B.cases.getD []) with
      | some bcs, some acs =>
          some (renderDoc (reportLines A B bp ap bcs acs))
      | _, _ => none := by
  unfold main
  cases buildIndex (A.cases.getD []) <;>
    cases buildIndex (B.cases.getD []) <;> rfl

set_option maxRecDepth 100000 in
/-- Counterexample to Claim C3 as stated: `dupSnap` and `dupSnapRev`
hold the same two cases (which share the id `"c1"`) in the two
possible orders, and the two runs produce different documents, because
last-write-wins picks a different winning occurrence. -/
theorem claim_c3_counterexample :
    (dupSnap.cases.getD []).Perm (dupSnapRev.cases.getD []) ∧
    dupSnap.profile = dupSnapRev.profile ∧
    dupSnap.top1_hit_rate = dupSnapRev.top1_hit_rate ∧
    dupSnap.mrr = dupSnapRev.mrr ∧
    dupSnap.extra = dupSnapRev.extra ∧
    main dupSnap emptySnap "pre.json" "post.json" ≠
      main dupSnapRev emptySnap "pre.json" "post.json" :=
  ⟨List.Perm.swap sampleDup2 sampleDup1 [], rfl, rfl, rfl, rfl,
    of_decide_eq_false (by with_unfolding_all rfl)⟩

/-- Claim C3 amended: permuting either snapshot's case list leaves the
report unchanged, provided the permuted list's `id` fields are
pairwise distinct (with a duplicated id, last-write-wins makes the
document order-dependent, as the counterexample shows). -/
theorem claim_c3_amended (A B : Snapshot) (bp ap : String)
    (cs cs' : List RawCase) (hperm : cs.Perm cs')
    (hnodup : (cs.map RawCase.id?).Nodup) :
    main { A with cases := some cs } B bp ap =
      main { A with cases := some cs' } B bp ap ∧
    main B { A with cases := some cs } bp ap =
      main B { A with cases := some cs' } bp ap := by
  have hcs : ({ A with cases := some cs } : Snapshot).cases.getD [] = cs := rfl
  have hcs' : ({ A with cases := some cs' } : Snapshot).cases.getD [] = cs' := rfl
  rcases buildIndex_perm hperm hnodup with
    ⟨h1, h2⟩ | ⟨idx, idx', h1, h2, hlook, hkeys⟩
  · constructor
    · rw [main_unfold, main_unfold, hcs, hcs', h1, h2]
    · rw [main_unfold, main_unfold, hcs, hcs', h1, h2]
      cases buildIndex (B.cases.getD []) <;> rfl
  · have hsec : ∀ acs, caseSection idx acs = caseSection idx' acs := by
      intro acs
      unfold caseSection
      rw [caseIds_congr hkeys (List.Perm.refl (keys acs))]
      congr 1
      apply List.map_congr_left
      intro i _
      unfold caseLine caseDelta
      rw [hlook i]
    have hsec' : ∀ bcs, caseSection bcs idx = caseSection bcs idx' := by
      intro bcs
      unfold caseSection
      rw [caseIds_congr (List.Perm.refl (keys bcs)) hkeys]
      congr 1
      apply List.map_congr_left
      intro i _
      unfold caseLine caseDelta
      rw [hlook i]
    constructor
    · rw [main_unfold, main_unfold, hcs, hcs', h1, h2]
      cases buildIndex (B.cases.getD []) with
      | none => rfl
      | some acs =>
          show some (renderDoc (reportLines _ B bp ap idx acs)) =
            some (renderDoc (reportLines _ B bp ap idx' acs))
          unfold reportLines
          rw [hsec acs]
          rfl
    · rw [main_unfold, main_unfold, hcs, hcs', h1, h2]
      cases buildIndex (B.cases.getD []) with
      | none => rfl
      | some bcs =>
          show some (renderDoc (reportLines B _ bp ap bcs idx)) =
            some (renderDoc (reportLines B _ bp ap bcs idx'))
          unfold reportLines
          rw [hsec' bcs]
          rfl

/-- Witness for the amended C3: swapping the two (distinct-id) cases
of the spec scenario's after snapshot does not change the report. -/
theorem claim_c3_amended_witness :
    main { sampleAfter with cases := some [cb1, cb2] } sampleBefore "a" "b" =
      main { sampleAfter with cases := some [cb2, cb1] } sampleBefore "a" "b" :=
  (claim_c3_amended sampleAfter sampleBefore "a" "b" [cb1, cb2] [cb2, cb1]
    (List.Perm.swap cb2 cb1 []) (by decide)).1

end RankingBudgetDiff
